import Mathlib

/-!
Verification development for the typescript2cxx C++ runtime library
(src/runtime/core.h, src/runtime/core.cpp, src/runtime/async.h).

The C++ code is shallowly embedded: IEEE-754 doubles are idealized as
rationals together with an explicit NaN marker (exact on every input the
theorems below evaluate), std::string is String, std::vector is List,
and the std::variant held by js::any becomes a closed inductive type.
-/

/-- Embeds the value set of a C++ double as used by js::number
(src/runtime/core.h, class number): an explicit NaN marker plus an exact
rational idealization of the finite doubles. -/
inductive JsNumber where
  | nan
  | val (q : ℚ)
deriving DecidableEq

/-- Embeds double addition as performed by number::operator+ and by the
raw double sums inside any::operator+ (core.h): NaN propagates, finite
values add exactly in the rational idealization. -/
def JsNumber.add : JsNumber → JsNumber → JsNumber
  | .val a, .val b => .val (a + b)
  | _, _ => .nan

/-- Embeds double equality (value semantics of the == on value_ fields in
core.h): NaN compares unequal to everything, including itself. -/
def JsNumber.eqv : JsNumber → JsNumber → Bool
  | .val a, .val b => a == b
  | _, _ => false

/-- Left-pads a decimal digit string with zeros to width 6; helper for the
fixed six-decimal formatting of std::to_string(double). -/
def padZeros6 (s : String) : String :=
  (List.replicate (6 - s.length) '0').asString ++ s

/-- Embeds std::to_string(double) (used by any::toString and the number
branches of any::operator+ in core.h): fixed-point formatting with six
fractional digits, rounding to nearest; std::to_string of NaN is "nan".
Exact on every input appearing in the theorems below. -/
def toStringDouble : JsNumber → String
  | .nan => "nan"
  | .val q =>
    let a : ℚ := |q|
    let scaled : ℤ := (a * 1000000 + (1 : ℚ) / 2).floor
    let ip : ℤ := scaled / 1000000
    let fp : ℤ := scaled % 1000000
    (if q < 0 then "-" else "") ++ toString ip ++ "." ++ padZeros6 (toString fp)

/-- Embeds the tagged union js::any (src/runtime/core.h, lines 436-446):
a std::variant over undefined_t, null_t, bool, number, string, array of
any and object. The object alternative stores its property map inline
(std::unordered_map by value), the array alternative its std::vector by
value; property maps are modelled as association lists keyed by the
property name, with the first binding for a key the authoritative one. -/
inductive any where
  | undefined
  | null
  | boolean (b : Bool)
  | num (n : JsNumber)
  | str (s : String)
  | arr (elems : List any)
  | obj (props : List (String × any))

/-- Embeds std::variant::index() on the value_ member of js::any: the
zero-based position of the active alternative in the variant declaration
order of core.h. -/
def any.variantIdx : any → ℕ
  | .undefined => 0
  | .null => 1
  | .boolean _ => 2
  | .num _ => 3
  | .str _ => 4
  | .arr _ => 5
  | .obj _ => 6

/-- Embeds any::is of number (std::holds_alternative on value_). -/
def any.isNumber : any → Bool
  | .num _ => true
  | _ => false

/-- Embeds any::is of string (std::holds_alternative on value_). -/
def any.isString : any → Bool
  | .str _ => true
  | _ => false

/-- Embeds any::get of number; only evaluated under an is-number guard in
the translated operators, exactly as std::get is in the C++ source. -/
def any.getNumber : any → JsNumber
  | .num n => n
  | _ => .nan

/-- Embeds any::get of string; only evaluated under an is-string guard in
the translated operators, exactly as std::get is in the C++ source. -/
def any.getString : any → String
  | .str s => s
  | _ => ""

/-- Embeds any::toString (core.h lines 499-506): strings pass through,
numbers go through std::to_string on the raw double, booleans, null and
undefined print their keywords, and every other alternative prints
"[object]". -/
def any.toString : any → String
  | .str s => s
  | .num n => toStringDouble n
  | .boolean b => if b then "true" else "false"
  | .null => "null"
  | .undefined => "undefined"
  | _ => "[object]"

/-- Embeds any::operator+ (src/runtime/core.h lines 582-602), branch for
branch: Number+Number adds the doubles; a Text left operand concatenates
with the to-string conversion of the right; a Text right operand
concatenates the to-string conversion of the left with it; otherwise, if
either side holds a Number, the non-Number side contributes 0.0 to a
double sum; otherwise the result is undefined. -/
def any.add (a b : any) : any :=
  if a.isNumber && b.isNumber then
    .num (a.getNumber.add b.getNumber)
  else if a.isString then
    .str (a.getString ++ b.toString)
  else if b.isString then
    .str (a.toString ++ b.getString)
  else if a.isNumber || b.isNumber then
    .num ((if a.isNumber then a.getNumber else .val 0).add
          (if b.isNumber then b.getNumber else .val 0))
  else
    .undefined

/-- Embeds array of T slice with one argument (core.h lines 286-292): an
out-of-range start yields a fresh empty array, otherwise the suffix from
start onward is copied out. -/
def arraySlice1 (xs : List α) (start : ℕ) : List α :=
  if xs.length ≤ start then [] else xs.drop start

/-- Embeds array of T slice with two arguments (core.h lines 294-304):
out-of-range start yields empty; the end is clamped to the length; a
start at or beyond the clamped end yields empty; otherwise the elements
in the half-open range are copied out. -/
def arraySlice2 (xs : List α) (start e : ℕ) : List α :=
  if xs.length ≤ start then []
  else
    let actualEnd := min e xs.length
    if actualEnd ≤ start then []
    else (xs.take actualEnd).drop start

/-- Embeds any::slice with one int argument (core.h lines 560-567): for
an array-holding value, the start is clamped below at 0 via std::max and
cast to size_t before delegating to the array slice; a non-array value
yields a fresh empty array. -/
def any.slice1 (a : any) (start : ℤ) : any :=
  match a with
  | .arr elems => .arr (arraySlice1 elems (max 0 start).toNat)
  | _ => .arr []

/-- Embeds any::slice with two int arguments (core.h lines 569-579):
both start and end are clamped below at 0 via std::max and cast to
size_t before delegating to the array slice; a non-array value yields a
fresh empty array. -/
def any.slice2 (a : any) (start e : ℤ) : any :=
  match a with
  | .arr elems => .arr (arraySlice2 elems (max 0 start).toNat (max 0 e).toNat)
  | _ => .arr []

/-- Embeds object::has of core.h (lines 397-399): an own-property
existence test on the unordered map; core.h never consults the
(declared but never assigned) prototype_ member, so the prototype chain
of a core.h object is always empty. -/
def objHas (props : List (String × any)) (key : String) : Bool :=
  (props.lookup key).isSome

/-- Embeds object::get_as_js_any (core.h lines 844-879) restricted to
property values that are js values, which is what the any-embedding
stores: the stored value if the key is present, undefined otherwise. -/
def getAsJsAny (props : List (String × any)) (key : String) : any :=
  match props.lookup key with
  | some v => v
  | none => .undefined

/-- Embeds any::operator[] with a string key (core.h lines 522-531): for
an object-holding value whose map has the key, the stored value; in
every other case undefined, never an error. -/
def any.index (a : any) (key : String) : any :=
  match a with
  | .obj props => if objHas props key then getAsJsAny props key else .undefined
  | _ => .undefined

/-- Embeds the key conversion inside any::operator[] with a number key
(core.h lines 534-552): a finite double with zero fractional part is
formatted as a long long in plain decimal (no trailing decimals), any
other double through std::to_string. -/
def numberKeyString (n : JsNumber) : String :=
  match n with
  | .nan => toStringDouble .nan
  | .val q => if q.den = 1 then toString q.num else toStringDouble (.val q)

/-- Embeds any::operator[] with a number key (core.h lines 534-552): the
key is converted to its string form and then looked up exactly as the
string-key operator does. -/
def any.indexNum (a : any) (n : JsNumber) : any :=
  match a with
  | .obj props =>
    if objHas props (numberKeyString n) then getAsJsAny props (numberKeyString n)
    else .undefined
  | _ => .undefined

/-- Embeds any::operator[] with an int key (core.h lines 555-557), which
wraps the int in a number and delegates to the number-key operator. -/
def any.indexInt (a : any) (k : ℤ) : any :=
  a.indexNum (.val (k : ℚ))

/-- Embeds the C++ view of a live js::any object in memory, needed only
by any::operator== (core.h lines 691-710): the visitor there compares
array and object alternatives by the addresses of the alternatives
stored inside the two variants. A live any object is its variant payload
together with the address at which its active alternative is stored;
distinct live objects store their alternatives at distinct addresses. -/
structure anyObject where
  value : any
  addr : ℕ

/-- Embeds C++ copy construction of js::any (the defaulted copy
constructor, core.h line 476): the variant, and with it an array or
object alternative, is copied by value into the new object, whose
alternative therefore lives at a fresh address distinct from the
address of the source alternative. -/
def anyObject.copy (a : anyObject) (fresh : ℕ) : anyObject :=
  { value := a.value, addr := fresh }

/-- Embeds any::operator== (src/runtime/core.h lines 691-710): different
variant indexes are never equal; undefined, null and bool compare by
their own operator== (undefined_t and null_t always compare true),
number and string compare stored values, and the array and object
alternatives compare by the address identity of the stored alternatives. -/
def anyObject.eqv (a b : anyObject) : Bool :=
  match a.value, b.value with
  | .undefined, .undefined => true
  | .null, .null => true
  | .boolean x, .boolean y => x == y
  | .num x, .num y => x.eqv y
  | .str x, .str y => x == y
  | .arr _, .arr _ => a.addr == b.addr
  | .obj _, .obj _ => a.addr == b.addr
  | _, _ => false

/-- Embeds the PromiseState enum of src/runtime/async.h lines 21-25. -/
inductive PromiseState where
  | Pending
  | Fulfilled
  | Rejected
deriving DecidableEq

/-- Embeds PromiseResult (async.h line 29): a variant over monostate,
the value type and the error type. -/
inductive PromiseResult (α ε : Type) where
  | monostate
  | value (v : α)
  | error (e : ε)
deriving DecidableEq

/-- Embeds the state of a Promise of T (async.h lines 235-238):
settlement state, stored result, and the two continuation queues.
Continuations are identified by opaque tags; delivering a payload to a
continuation is recorded as a fired pair of tag and payload. -/
structure Promise (α ε : Type) where
  state : PromiseState
  result : PromiseResult α ε
  callbacks : List ℕ
  errorCallbacks : List ℕ
deriving DecidableEq

/-- Embeds the freshly constructed pending Promise (async.h line 39). -/
def Promise.init : Promise α ε :=
  { state := .Pending, result := .monostate, callbacks := [], errorCallbacks := [] }

/-- Embeds Promise::resolve (async.h lines 195-205): a no-op unless
Pending; otherwise the state becomes Fulfilled, the value is stored,
every queued fulfillment continuation fires with the value in
registration order, and the fulfillment queue is cleared. -/
def Promise.resolve (p : Promise α ε) (v : α) : Promise α ε × List (ℕ × α) :=
  if p.state ≠ .Pending then (p, [])
  else
    ({ state := .Fulfilled, result := .value v,
       callbacks := [], errorCallbacks := p.errorCallbacks },
     p.callbacks.map (fun cb => (cb, v)))

/-- Embeds Promise::reject (async.h lines 207-217): a no-op unless
Pending; otherwise the state becomes Rejected, the error is stored,
every queued rejection continuation fires with the error in
registration order, and the rejection queue is cleared. -/
def Promise.reject (p : Promise α ε) (e : ε) : Promise α ε × List (ℕ × ε) :=
  if p.state ≠ .Pending then (p, [])
  else
    ({ state := .Rejected, result := .error e,
       callbacks := p.callbacks, errorCallbacks := [] },
     p.errorCallbacks.map (fun cb => (cb, e)))

/-- Embeds Promise::addCallback (async.h lines 219-225): on a Fulfilled
promise the continuation fires immediately with the stored value; on a
Pending promise it is queued; on a Rejected promise it is dropped. -/
def Promise.addCallback (p : Promise α ε) (cb : ℕ) : Promise α ε × Option (ℕ × α) :=
  match p.state with
  | .Fulfilled =>
    (p, match p.result with
        | .value v => some (cb, v)
        | _ => none)
  | .Pending => ({ p with callbacks := p.callbacks ++ [cb] }, none)
  | .Rejected => (p, none)

/-- Embeds Promise::addErrorCallback (async.h lines 227-233): on a
Rejected promise the continuation fires immediately with the stored
error; on a Pending promise it is queued; on a Fulfilled promise it is
dropped. -/
def Promise.addErrorCallback (p : Promise α ε) (cb : ℕ) : Promise α ε × Option (ℕ × ε) :=
  match p.state with
  | .Rejected =>
    (p, match p.result with
        | .error e => some (cb, e)
        | _ => none)
  | .Pending => ({ p with errorCallbacks := p.errorCallbacks ++ [cb] }, none)
  | .Fulfilled => (p, none)

/-- A settlement attempt on a Promise: the argument of a later resolve
or reject call arriving after the first settlement. -/
inductive SettleOp (α ε : Type) where
  | resolveOp (v : α)
  | rejectOp (e : ε)

/-- Applies one resolve or reject call to a Promise, discarding the
fired-continuation log. -/
def Promise.applyOp (p : Promise α ε) : SettleOp α ε → Promise α ε
  | .resolveOp v => (p.resolve v).1
  | .rejectOp e => (p.reject e).1

/-- Applies a sequence of resolve and reject calls in order. -/
def Promise.applyOps (p : Promise α ε) (ops : List (SettleOp α ε)) : Promise α ε :=
  ops.foldl Promise.applyOp p

/-- The settlement of one input future, as observed by the callbacks the
all and race combinators register on it: either a fulfillment value or a
rejection error. A future settles at most once, so each input
contributes at most one such event. -/
inductive Outcome (α ε : Type) where
  | fulfill (v : α)
  | rejected (e : ε)

/-- True exactly on fulfillment events. -/
def Outcome.isFulfill : Outcome α ε → Bool
  | .fulfill _ => true
  | .rejected _ => false

/-- Embeds the shared intermediate state of Promise::all (async.h lines
146-170): the shared results vector (resized to the input count with
default-constructed elements), the shared completion counter, and the
aggregate result promise. -/
structure AllState (α ε : Type) where
  results : List α
  completed : ℕ
  agg : Promise (List α) ε

/-- Embeds the callbacks Promise::all registers on input i (async.h
lines 158-167), run when that input settles: on fulfillment the value is
stored at index i, the counter is incremented, and when it reaches the
input count the aggregate resolves with the results vector; on rejection
the aggregate is rejected with the error (a no-op if already settled). -/
def allStep (n : ℕ) (s : AllState α ε) (ev : ℕ × Outcome α ε) : AllState α ε :=
  match ev.2 with
  | .fulfill v =>
    let results := s.results.set ev.1 v
    let completed := s.completed + 1
    { results := results, completed := completed,
      agg := if completed = n then (s.agg.resolve results).1 else s.agg }
  | .rejected e => { s with agg := (s.agg.reject e).1 }

/-- Embeds Promise::all applied to n input futures whose settlements
arrive in the order given by events (async.h lines 146-170): an empty
input list resolves the aggregate immediately with an empty vector;
otherwise the shared state starts with a default-filled results vector
and the registered callbacks process each settlement in arrival order. -/
def allRun (n : ℕ) (dflt : α) (events : List (ℕ × Outcome α ε)) : AllState α ε :=
  if n = 0 then
    { results := [], completed := 0, agg := (Promise.init.resolve []).1 }
  else
    events.foldl (allStep n) { results := List.replicate n dflt, completed := 0, agg := Promise.init }

/-- Embeds the shared state of Promise::race (async.h lines 173-192):
the atomic settled flag and the race result promise. -/
structure RaceState (α ε : Type) where
  settled : Bool
  result : Promise α ε

/-- Embeds the callbacks Promise::race registers on every input (async.h
lines 177-188), run when that input settles: a compare-exchange on the
settled flag admits exactly the first settlement, which resolves or
rejects the result promise; every later settlement finds the flag set
and is ignored. -/
def raceStep (s : RaceState α ε) (ev : Outcome α ε) : RaceState α ε :=
  match ev with
  | .fulfill v =>
    if s.settled then s else { settled := true, result := (s.result.resolve v).1 }
  | .rejected e =>
    if s.settled then s else { settled := true, result := (s.result.reject e).1 }

/-- Embeds Promise::race applied to input futures whose settlements
arrive in the order given by events. -/
def raceRun (events : List (Outcome α ε)) : RaceState α ε :=
  events.foldl raceStep { settled := false, result := Promise.init }

/-- Embeds the pair of callbacks Promise::catch_ (async.h lines 94-112)
registers on the source promise, as they act on the derived promise when
the source settles: a fulfillment resolves the derived promise with the
value; a rejection runs the handler, and only when the handler itself
throws is the derived promise rejected, with the new error; a handler
that returns normally settles nothing. The handler is modelled by its
observable effect: none for a normal return, some of the thrown error
otherwise. -/
def catchSettle (h : ε → Option ε) (next : Promise α ε) : Outcome α ε → Promise α ε
  | .fulfill v => (next.resolve v).1
  | .rejected e =>
    match h e with
    | none => next
    | some e2 => (next.reject e2).1

/-- Embeds the object class of src/runtime/core.cpp (lines 425-521): an
own-property map plus an optional shared prototype reference. -/
inductive jsObject where
  | mk (props : List (String × any)) (proto : Option jsObject)

/-- The own-property map of a core.cpp object. -/
def jsObject.props : jsObject → List (String × any)
  | .mk props _ => props

/-- The prototype reference of a core.cpp object. -/
def jsObject.proto : jsObject → Option jsObject
  | .mk _ proto => proto

/-- Embeds object::operator[] of core.cpp (lines 431-444): an own
property is returned if present, otherwise the prototype chain is
searched, and a miss at the end of the chain yields undefined. -/
def jsObject.opIndex : jsObject → String → any
  | .mk props proto, key =>
    match props.lookup key, proto with
    | some v, _ => v
    | none, some p => p.opIndex key
    | none, none => .undefined

/-- Embeds object::hasOwnProperty of core.cpp (lines 446-448): an
own-map existence test that never touches the prototype. -/
def jsObject.hasOwnProperty : jsObject → String → Bool
  | .mk props _, key => (props.lookup key).isSome

/-- Embeds object::hasProperty of core.cpp (lines 450-458): own
existence first, then the prototype chain. -/
def jsObject.hasProperty : jsObject → String → Bool
  | .mk props proto, key =>
    match props.lookup key, proto with
    | some _, _ => true
    | none, some p => p.hasProperty key
    | none, none => false

/-- Embeds the insert-or-assign behavior of unordered_map::operator[]
followed by assignment, as performed on the own-property map by
object::defineProperty. -/
def updateProps : List (String × any) → String → any → List (String × any)
  | [], k, v => [(k, v)]
  | (k0, v0) :: rest, k, v =>
    if k0 = k then (k, v) :: rest else (k0, v0) :: updateProps rest k v

/-- Embeds object::defineProperty of core.cpp (lines 460-462): a write
to the own-property map only; the prototype reference and the prototype
object itself are untouched. -/
def jsObject.defineProperty : jsObject → String → any → jsObject
  | .mk props proto, key, v => .mk (updateProps props key v) proto

/-- Folds a decimal digit list into a natural number; helper for the
std::stod model. -/
def digitsToNat (cs : List Char) : ℕ :=
  cs.foldl (fun a c => a * 10 + (c.toNat - 48)) 0

/-- Models std::stod on the decimal grammar relevant here: leading
whitespace is skipped, an optional sign is read, then an integer part
and an optional fractional part; when no digit at all is consumed, no
conversion is possible and std::invalid_argument is thrown, modelled as
the error result. Exponents and hexadecimal or infinity and nan forms
are outside the inputs exercised below. -/
def stod (s : String) : Except Unit ℚ :=
  let cs := s.toList.dropWhile (fun c => c.isWhitespace)
  let sgnCs : ℚ × List Char :=
    match cs with
    | '-' :: rest => (-1, rest)
    | '+' :: rest => (1, rest)
    | _ => (1, cs)
  let intPart := sgnCs.2.takeWhile (fun c => c.isDigit)
  let afterInt := sgnCs.2.dropWhile (fun c => c.isDigit)
  let fracPart : List Char :=
    match afterInt with
    | '.' :: rest => rest.takeWhile (fun c => c.isDigit)
    | _ => []
  if intPart.isEmpty && fracPart.isEmpty then .error ()
  else
    .ok (sgnCs.1 * ((digitsToNat intPart : ℚ) +
        (digitsToNat fracPart : ℚ) / (10 ^ fracPart.length)))

/-- Embeds the number constructor from std::string as written inline in
src/runtime/core.h line 63: the raw std::stod result with no handler, so
a failed conversion propagates the exception to the caller. -/
def numberFromStringH (s : String) : Except Unit JsNumber :=
  (stod s).map .val

/-- Embeds the number constructor from std::string as defined in
src/runtime/core.cpp lines 21-27: std::stod wrapped in a catch-all that
turns any conversion failure into the NaN sentinel. -/
def numberFromStringCpp (s : String) : JsNumber :=
  match stod s with
  | .ok q => .val q
  | .error _ => .nan

/-- The number of elements of an array-holding value; observer used to
separate structurally different arrays. -/
def any.arrLength : any → ℕ
  | .arr elems => elems.length
  | _ => 0

/-- The concrete five-element Sequence of the spec examples,
Sequence([1,2,3,4,5]). -/
def fiveSeq : any :=
  .arr [.num (.val 1), .num (.val 2), .num (.val 3), .num (.val 4), .num (.val 5)]

/-- A concrete Record-holding live any object, stored at address 0. -/
def objA : anyObject :=
  { value := .obj [("k", .num (.val 1))], addr := 0 }

/-- Lookup after the insert-or-assign write of updateProps finds the
written value. -/
theorem updateProps_lookup_self (props : List (String × any)) (k : String) (v : any) :
    (updateProps props k v).lookup k = some v := by
  induction props with
  | nil => simp [updateProps]
  | cons hd tl ih =>
    obtain ⟨k0, v0⟩ := hd
    by_cases hk : k0 = k
    · simp [updateProps, hk]
    · simp only [updateProps, if_neg hk, List.lookup]
      have : (k == k0) = false := by
        simp [beq_iff_eq]
        exact fun h => hk h.symm
      simp [this, ih]

/-- Resolve on a pending promise: the fulfilled shape. -/
theorem Promise.resolve_pending (p : Promise α ε) (h : p.state = .Pending) (v : α) :
    (p.resolve v).1 =
      { state := .Fulfilled, result := .value v,
        callbacks := [], errorCallbacks := p.errorCallbacks } := by
  simp [Promise.resolve, h]

/-- Reject on a pending promise: the rejected shape. -/
theorem Promise.reject_pending (p : Promise α ε) (h : p.state = .Pending) (e : ε) :
    (p.reject e).1 =
      { state := .Rejected, result := .error e,
        callbacks := p.callbacks, errorCallbacks := [] } := by
  simp [Promise.reject, h]

/-- Resolve is a no-op on a settled promise. -/
theorem Promise.resolve_settled (p : Promise α ε) (h : p.state ≠ .Pending) (v : α) :
    p.resolve v = (p, []) := by
  simp [Promise.resolve, h]

/-- Reject is a no-op on a settled promise. -/
theorem Promise.reject_settled (p : Promise α ε) (h : p.state ≠ .Pending) (e : ε) :
    p.reject e = (p, []) := by
  simp [Promise.reject, h]

/-- A single later settlement attempt leaves a settled promise intact. -/
theorem Promise.applyOp_settled (p : Promise α ε) (h : p.state ≠ .Pending)
    (op : SettleOp α ε) : p.applyOp op = p := by
  cases op with
  | resolveOp v => simp [Promise.applyOp, Promise.resolve_settled p h]
  | rejectOp e => simp [Promise.applyOp, Promise.reject_settled p h]

/-- Any sequence of later settlement attempts leaves a settled promise
intact. -/
theorem Promise.applyOps_settled (p : Promise α ε) (h : p.state ≠ .Pending)
    (ops : List (SettleOp α ε)) : p.applyOps ops = p := by
  induction ops with
  | nil => rfl
  | cons op rest ih =>
    show Promise.applyOps (p.applyOp op) rest = p
    rw [Promise.applyOp_settled p h op]
    exact ih

/-- C1: a Promise transitions Pending to Fulfilled or Pending to Rejected
at most once. After a first resolve with v1, any sequence of later
resolve or reject calls leaves the state Fulfilled and the stored
payload v1, and a continuation added through addCallback after
settlement fires immediately with v1 instead of being queued;
symmetrically, after a first reject with e1 the state stays Rejected
with payload e1 and a continuation added through addErrorCallback fires
immediately with e1. -/
theorem promise_settle_once (p0 : Promise α ε) (hp : p0.state = .Pending)
    (v1 : α) (e1 : ε) :
    ((p0.resolve v1).1.state = .Fulfilled ∧ (p0.resolve v1).1.result = .value v1) ∧
    (∀ ops : List (SettleOp α ε),
      ((p0.resolve v1).1.applyOps ops).state = .Fulfilled ∧
      ((p0.resolve v1).1.applyOps ops).result = .value v1) ∧
    (∀ cb : ℕ, (p0.resolve v1).1.addCallback cb = ((p0.resolve v1).1, some (cb, v1))) ∧
    ((p0.reject e1).1.state = .Rejected ∧ (p0.reject e1).1.result = .error e1) ∧
    (∀ ops : List (SettleOp α ε),
      ((p0.reject e1).1.applyOps ops).state = .Rejected ∧
      ((p0.reject e1).1.applyOps ops).result = .error e1) ∧
    (∀ cb : ℕ, (p0.reject e1).1.addErrorCallback cb = ((p0.reject e1).1, some (cb, e1))) := by
  rw [Promise.resolve_pending p0 hp v1, Promise.reject_pending p0 hp e1]
  refine ⟨⟨rfl, rfl⟩, ?_, ?_, ⟨rfl, rfl⟩, ?_, ?_⟩
  · intro ops
    rw [Promise.applyOps_settled _ (by simp) ops]
    exact ⟨rfl, rfl⟩
  · intro cb
    rfl
  · intro ops
    rw [Promise.applyOps_settled _ (by simp) ops]
    exact ⟨rfl, rfl⟩
  · intro cb
    rfl

/-- Witness for C1 at a concrete pending promise with v1 = 7, e1 = 3. -/
theorem promise_settle_once_witness :
    (Promise.init : Promise ℕ ℕ).state = .Pending ∧
    (((Promise.init : Promise ℕ ℕ).resolve 7).1.state = .Fulfilled ∧
      ((Promise.init : Promise ℕ ℕ).resolve 7).1.result = .value 7) ∧
    (∀ ops : List (SettleOp ℕ ℕ),
      (((Promise.init : Promise ℕ ℕ).resolve 7).1.applyOps ops).state = .Fulfilled ∧
      (((Promise.init : Promise ℕ ℕ).resolve 7).1.applyOps ops).result = .value 7) ∧
    (∀ cb : ℕ, ((Promise.init : Promise ℕ ℕ).resolve 7).1.addCallback cb =
      (((Promise.init : Promise ℕ ℕ).resolve 7).1, some (cb, 7))) ∧
    (((Promise.init : Promise ℕ ℕ).reject 3).1.state = .Rejected ∧
      ((Promise.init : Promise ℕ ℕ).reject 3).1.result = .error 3) ∧
    (∀ ops : List (SettleOp ℕ ℕ),
      (((Promise.init : Promise ℕ ℕ).reject 3).1.applyOps ops).state = .Rejected ∧
      (((Promise.init : Promise ℕ ℕ).reject 3).1.applyOps ops).result = .error 3) ∧
    (∀ cb : ℕ, ((Promise.init : Promise ℕ ℕ).reject 3).1.addErrorCallback cb =
      (((Promise.init : Promise ℕ ℕ).reject 3).1, some (cb, 3))) :=
  ⟨rfl, promise_settle_once Promise.init rfl 7 3⟩

/-- A race whose settled flag is already set ignores every further
settlement. -/
theorem raceRun_absorb (s : RaceState α ε) (h : s.settled = true)
    (events : List (Outcome α ε)) : events.foldl raceStep s = s := by
  induction events with
  | nil => rfl
  | cons e rest ih =>
    have hstep : raceStep s e = s := by
      cases e <;> simp [raceStep, h]
    rw [List.foldl_cons, hstep]
    exact ih

/-- C4: the race future settles with the value or error of whichever
input settles first, fulfilled or rejected alike, and any input settling
after that first settlement never changes the race future state or
payload: the final race state equals the state reached right after the
first settlement, fulfilled with its value or rejected with its error. -/
theorem race_first_wins (e : Outcome α ε) (rest : List (Outcome α ε)) :
    raceRun (e :: rest) = raceRun [e] ∧
    (∀ v : α, raceRun ((Outcome.fulfill v : Outcome α ε) :: rest) =
      { settled := true,
        result := { state := .Fulfilled, result := .value v,
                    callbacks := [], errorCallbacks := [] } }) ∧
    (∀ er : ε, raceRun ((Outcome.rejected er : Outcome α ε) :: rest) =
      { settled := true,
        result := { state := .Rejected, result := .error er,
                    callbacks := [], errorCallbacks := [] } }) := by
  have key : ∀ ev : Outcome α ε, raceRun (ev :: rest) = raceStep { settled := false, result := Promise.init } ev := by
    intro ev
    show List.foldl raceStep (raceStep { settled := false, result := Promise.init } ev) rest = _
    apply raceRun_absorb
    cases ev <;> simp [raceStep]
  refine ⟨?_, ?_, ?_⟩
  · rw [key e]
    rfl
  · intro v
    rw [key (.fulfill v)]
    rfl
  · intro er
    rw [key (.rejected er)]
    rfl

/-- C9: the number-from-string constructor as written inline in core.h
line 63 propagates the std::stod failure on a non-numeric string, while
the definition of the same constructor in core.cpp lines 21-27 catches
it and yields the NaN sentinel; on a numeric string both agree. -/
theorem numberFromString_parse_failure :
    numberFromStringH "abc" = .error () ∧
    numberFromStringCpp "abc" = .nan ∧
    numberFromStringH "1.5" = .ok (.val (3 / 2)) ∧
    numberFromStringCpp "1.5" = .val (3 / 2) := by
  refine ⟨rfl, rfl, ?_, ?_⟩ <;>
    simp [numberFromStringH, numberFromStringCpp, stod, digitsToNat, Except.map] <;> norm_num

/-- C10: when the source promise rejects with e and the catch_ handler,
applied to e, returns normally, the derived promise of catch_ is left
exactly as created, still Pending: neither fulfilled nor rejected. -/
theorem catch_handler_swallows (h : ε → Option ε) (e : ε) (hnorm : h e = none) :
    catchSettle h (Promise.init : Promise α ε) (.rejected e) = Promise.init ∧
    (Promise.init : Promise α ε).state = .Pending := by
  constructor
  · simp [catchSettle, hnorm]
  · rfl

/-- Witness for C10 with the handler that always returns normally. -/
theorem catch_handler_swallows_witness :
    (fun _ : ℕ => (none : Option ℕ)) 0 = none ∧
    (catchSettle (fun _ : ℕ => (none : Option ℕ)) (Promise.init : Promise ℕ ℕ) (.rejected 0) = Promise.init ∧
      (Promise.init : Promise ℕ ℕ).state = .Pending) :=
  ⟨rfl, catch_handler_swallows (fun _ => none) 0 rfl⟩

/-- C2 counterexample: the code coerces a Boolean operand of + to 0.0,
not to 1.0, so DynamicValue(Number(1)) + DynamicValue(Boolean(true))
yields Number(1), not the Number(2) the claim states; and when neither
operand holds a Number or Text the result is Undefined, not a Number. -/
theorem anyAdd_coercion_counterexample :
    any.add (.num (.val 1)) (.boolean true) = .num (.val 1) ∧
    any.add (.num (.val 1)) (.boolean true) ≠ .num (.val 2) ∧
    any.add (.boolean true) (.boolean true) = .undefined := by
  refine ⟨?_, ?_, rfl⟩
  · simp [any.add, any.isNumber, any.isString, any.getNumber, JsNumber.add]
  · simp [any.add, any.isNumber, any.isString, any.getNumber, JsNumber.add]

/-- C2 (amended): for any two DynamicValues a and b, a + b is a Number
holding the sum when both hold Numbers; a Text concatenation with the
other operand converted to text when either holds Text; otherwise, when
at least one operand holds a Number, a Number obtained by coercing the
non-Number operand to 0 and summing, so Number(1) + Boolean(true) yields
Number(1); when neither operand holds a Number or Text the result is
Undefined; and the operation never throws (it is a total function). -/
theorem anyAdd_coercion_amended :
    (∀ x y : ℚ, any.add (.num (.val x)) (.num (.val y)) = .num (.val (x + y))) ∧
    (∀ (s : String) (b : any), any.add (.str s) b = .str (s ++ b.toString)) ∧
    (∀ (a : any) (t : String), a.isString = false →
      any.add a (.str t) = .str (a.toString ++ t)) ∧
    (∀ (n : JsNumber) (b : any), b.isNumber = false → b.isString = false →
      any.add (.num n) b = .num (n.add (.val 0))) ∧
    (∀ (a : any) (n : JsNumber), a.isNumber = false → a.isString = false →
      any.add a (.num n) = .num ((JsNumber.val 0).add n)) ∧
    (∀ a b : any, a.isNumber = false → b.isNumber = false →
      a.isString = false → b.isString = false → any.add a b = .undefined) ∧
    any.add (.num (.val 1)) (.boolean true) = .num (.val 1) := by
  refine ⟨?_, ?_, ?_, ?_, ?_, ?_, ?_⟩
  · intro x y
    simp [any.add, any.isNumber, any.getNumber, JsNumber.add]
  · intro s b
    simp [any.add, any.isNumber, any.isString, any.getString]
  · intro a t ha
    cases a <;> first
      | rfl
      | simp_all [any.isString]
  · intro n b hb1 hb2
    cases b <;> first
      | rfl
      | simp_all [any.isNumber, any.isString]
  · intro a n ha1 ha2
    cases a <;> first
      | rfl
      | simp_all [any.isNumber, any.isString]
  · intro a b ha1 hb1 ha2 hb2
    cases a <;> cases b <;> first
      | rfl
      | simp_all [any.isNumber, any.isString]
  · simp [any.add, any.isNumber, any.isString, any.getNumber, JsNumber.add]

/-- Witness for the amended C2 statement at concrete operands. -/
theorem anyAdd_coercion_amended_witness :
    ((any.boolean false).isString = false ∧ (any.boolean false).isNumber = false ∧
      (any.null).isNumber = false ∧ (any.null).isString = false) ∧
    any.add (.boolean false) (.str "t") = .str ((any.boolean false).toString ++ "t") ∧
    any.add (.num (.val 1)) (.boolean false) = .num ((JsNumber.val 1).add (.val 0)) ∧
    any.add (.boolean false) (.null) = .undefined :=
  ⟨⟨rfl, rfl, rfl, rfl⟩,
    anyAdd_coercion_amended.2.2.1 (.boolean false) "t" rfl,
    anyAdd_coercion_amended.2.2.2.1 (.val 1) (.boolean false) rfl rfl,
    anyAdd_coercion_amended.2.2.2.2.2.1 (.boolean false) (.null) rfl rfl rfl rfl⟩

/-- The one-argument array slice is a plain drop. -/
theorem arraySlice1_eq_drop (xs : List α) (s : ℕ) : arraySlice1 xs s = xs.drop s := by
  by_cases h : xs.length ≤ s
  · simp [arraySlice1, h, List.drop_eq_nil_of_le h]
  · simp [arraySlice1, h]

/-- The two-argument array slice is a take followed by a drop. -/
theorem arraySlice2_eq_take_drop (xs : List α) (s e : ℕ) :
    arraySlice2 xs s e = (xs.take (min e xs.length)).drop s := by
  by_cases h1 : xs.length ≤ s
  · have hnil : (xs.take (min e xs.length)).drop s = [] := by
      apply List.drop_eq_nil_of_le
      simp [List.length_take]
      omega
    simp [arraySlice2, h1, hnil]
  · by_cases h2 : min e xs.length ≤ s
    · have hnil : (xs.take (min e xs.length)).drop s = [] := by
        apply List.drop_eq_nil_of_le
        simp [List.length_take]
        omega
      simp [arraySlice2, h1, h2, hnil]
    · simp [arraySlice2, h1, h2]

/-- C5 counterexample: the code clamps a negative slice index to 0
rather than normalizing it by the length, so
Sequence([1,2,3,4,5]).slice(-2) is the whole Sequence [1,2,3,4,5], not
the [4,5] the claim states, and slice(1,-1) is empty, not [2,3,4]. -/
theorem anySlice_negative_counterexample :
    any.slice1 fiveSeq (-2) = fiveSeq ∧
    any.slice1 fiveSeq (-2) ≠ .arr [.num (.val 4), .num (.val 5)] ∧
    any.slice2 fiveSeq 1 (-1) = .arr [] ∧
    any.slice2 fiveSeq 1 (-1) ≠ .arr [.num (.val 2), .num (.val 3), .num (.val 4)] := by
  have h1 : any.slice1 fiveSeq (-2) = fiveSeq := by
    simp [fiveSeq, any.slice1, arraySlice1]
  have h3 : any.slice2 fiveSeq 1 (-1) = .arr [] := by
    simp [fiveSeq, any.slice2, arraySlice2]
  refine ⟨h1, ?_, h3, ?_⟩
  · rw [h1]
    intro hEq
    have hLen := congrArg any.arrLength hEq
    simp [any.arrLength, fiveSeq] at hLen
  · rw [h3]
    intro hEq
    have hLen := congrArg any.arrLength hEq
    simp [any.arrLength] at hLen

/-- C5 (amended): in any::slice a negative start or end is clamped to 0
via std::max, with no length-relative normalization; slice with one
argument keeps the suffix from the clamped start, so end defaults to the
length; slice with two arguments keeps the elements from the clamped
start up to the end clamped into the length, empty whenever the clamped
start is at or beyond that bound; hence Sequence([1,2,3,4,5]).slice(-2)
is the whole Sequence and slice(1,-1) is empty; a non-Sequence value
slices to a fresh empty Sequence. -/
theorem anySlice_clamped_amended :
    (∀ (xs : List any) (s : ℤ), s ≤ 0 → any.slice1 (.arr xs) s = .arr xs) ∧
    (∀ (xs : List any) (s : ℤ),
      any.slice1 (.arr xs) s = .arr (xs.drop (max 0 s).toNat)) ∧
    (∀ (xs : List any) (s e : ℤ), e ≤ 0 → any.slice2 (.arr xs) s e = .arr []) ∧
    (∀ (xs : List any) (s e : ℕ), any.slice2 (.arr xs) (s : ℤ) (e : ℤ) =
      .arr ((xs.take (min e xs.length)).drop s)) ∧
    any.slice1 fiveSeq (-2) = fiveSeq ∧
    any.slice2 fiveSeq 1 (-1) = .arr [] ∧
    (∀ (a : any) (s : ℤ), (∀ xs, a ≠ .arr xs) → any.slice1 a s = .arr []) := by
  have key1 : ∀ (xs : List any) (s : ℤ),
      any.slice1 (.arr xs) s = .arr (xs.drop (max 0 s).toNat) := by
    intro xs s
    simp [any.slice1, arraySlice1_eq_drop]
  have key2 : ∀ (xs : List any) (s e : ℤ), any.slice2 (.arr xs) s e =
      .arr ((xs.take (min (max 0 e).toNat xs.length)).drop (max 0 s).toNat) := by
    intro xs s e
    simp [any.slice2, arraySlice2_eq_take_drop]
  refine ⟨?_, key1, ?_, ?_, ?_, ?_, ?_⟩
  · intro xs s hs
    rw [key1]
    have : (max 0 s).toNat = 0 := by omega
    simp [this]
  · intro xs s e he
    rw [key2]
    have : (max 0 e).toNat = 0 := by omega
    simp [this]
  · intro xs s e
    rw [key2]
    have h1 : (max 0 (s : ℤ)).toNat = s := by omega
    have h2 : (max 0 (e : ℤ)).toNat = e := by omega
    rw [h1, h2]
  · simp [fiveSeq, any.slice1, arraySlice1]
  · simp [fiveSeq, any.slice2, arraySlice2]
  · intro a s ha
    cases a with
    | arr xs => exact absurd rfl (ha xs)
    | undefined => rfl
    | null => rfl
    | boolean b => rfl
    | num n => rfl
    | str t => rfl
    | obj props => rfl

/-- Witness for the amended C5 statement at concrete inputs. -/
theorem anySlice_clamped_amended_witness :
    ((-3 : ℤ) ≤ 0 ∧ (-1 : ℤ) ≤ 0 ∧ (∀ xs, any.null ≠ any.arr xs)) ∧
    any.slice1 (.arr [.null]) (-3) = .arr [.null] ∧
    any.slice2 (.arr [.null]) 0 (-1) = .arr [] ∧
    any.slice1 .null (-3) = .arr [] :=
  ⟨⟨by decide, by decide, fun xs h => nomatch h⟩,
    anySlice_clamped_amended.1 [.null] (-3) (by decide),
    anySlice_clamped_amended.2.2.1 [.null] 0 (-1) (by decide),
    anySlice_clamped_amended.2.2.2.2.2.2 .null (-3) (fun xs h => nomatch h)⟩

/-- C6 counterexample: copying a DynamicValue that holds a Record copies
the storage into a fresh address (std::variant stores the object by
value); the copy has an identical variant payload yet operator==, which
compares alternative addresses, returns false — so two DynamicValues
copied from the same Record do not compare equal, against the claim. -/
theorem anyEq_copy_counterexample :
    (objA.copy 1).value = objA.value ∧
    (objA.copy 1).addr ≠ objA.addr ∧
    anyObject.eqv objA (objA.copy 1) = false :=
  ⟨rfl, by decide, rfl⟩

/-- C6 (amended): operator== returns false whenever the active variants
differ; Boolean, Number and Text compare by value; Sequence and Record
compare by address identity of the stored alternative, which holds when
the two sides are the same live object and fails whenever the addresses
differ — in particular a copy, which lives at a fresh address, never
compares equal to its source even though its payload is structurally
identical, and structural equality of distinct storages never makes two
values equal. -/
theorem anyEq_strict_kinds_amended :
    (∀ a b : anyObject, a.value.variantIdx ≠ b.value.variantIdx → a.eqv b = false) ∧
    (∀ (x y : Bool) (ax ay : ℕ),
      anyObject.eqv ⟨.boolean x, ax⟩ ⟨.boolean y, ay⟩ = (x == y)) ∧
    (∀ (x y : JsNumber) (ax ay : ℕ),
      anyObject.eqv ⟨.num x, ax⟩ ⟨.num y, ay⟩ = x.eqv y) ∧
    (∀ (x y : String) (ax ay : ℕ),
      anyObject.eqv ⟨.str x, ax⟩ ⟨.str y, ay⟩ = (x == y)) ∧
    (∀ (props : List (String × any)) (ad : ℕ),
      anyObject.eqv ⟨.obj props, ad⟩ ⟨.obj props, ad⟩ = true) ∧
    (∀ (es : List any) (ad : ℕ),
      anyObject.eqv ⟨.arr es, ad⟩ ⟨.arr es, ad⟩ = true) ∧
    (∀ (p1 p2 : List (String × any)) (a1 a2 : ℕ), a1 ≠ a2 →
      anyObject.eqv ⟨.obj p1, a1⟩ ⟨.obj p2, a2⟩ = false) ∧
    (∀ (e1 e2 : List any) (a1 a2 : ℕ), a1 ≠ a2 →
      anyObject.eqv ⟨.arr e1, a1⟩ ⟨.arr e2, a2⟩ = false) ∧
    (∀ (a : anyObject) (fresh : ℕ), fresh ≠ a.addr →
      (a.value.variantIdx = 5 ∨ a.value.variantIdx = 6) →
      a.eqv (a.copy fresh) = false) := by
  refine ⟨?_, ?_, ?_, ?_, ?_, ?_, ?_, ?_, ?_⟩
  · intro a b hne
    obtain ⟨va, aa⟩ := a
    obtain ⟨vb, ab⟩ := b
    cases va <;> cases vb <;> simp_all [anyObject.eqv, any.variantIdx]
  · intro x y ax ay
    rfl
  · intro x y ax ay
    rfl
  · intro x y ax ay
    rfl
  · intro props ad
    simp [anyObject.eqv]
  · intro es ad
    simp [anyObject.eqv]
  · intro p1 p2 a1 a2 hne
    simp [anyObject.eqv, hne]
  · intro e1 e2 a1 a2 hne
    simp [anyObject.eqv, hne]
  · intro a fresh hne hv
    obtain ⟨va, aa⟩ := a
    cases va <;> simp_all [anyObject.eqv, anyObject.copy, any.variantIdx]
    · exact fun h => hne h.symm
    · exact fun h => hne h.symm

/-- Witness for the amended C6 statement at concrete live objects. -/
theorem anyEq_strict_kinds_amended_witness :
    ((anyObject.mk .null 0).value.variantIdx ≠ (anyObject.mk (.boolean true) 0).value.variantIdx ∧
      (0 : ℕ) ≠ 1 ∧ (2 : ℕ) ≠ objA.addr ∧
      (objA.value.variantIdx = 5 ∨ objA.value.variantIdx = 6)) ∧
    anyObject.eqv ⟨.null, 0⟩ ⟨.boolean true, 0⟩ = false ∧
    anyObject.eqv ⟨.obj [], 0⟩ ⟨.obj [], 1⟩ = false ∧
    anyObject.eqv objA (objA.copy 2) = false :=
  ⟨⟨by decide, by decide, by decide, Or.inr rfl⟩,
    anyEq_strict_kinds_amended.1 ⟨.null, 0⟩ ⟨.boolean true, 0⟩ (by decide),
    anyEq_strict_kinds_amended.2.2.2.2.2.2.1 [] [] 0 1 (by decide),
    anyEq_strict_kinds_amended.2.2.2.2.2.2.2.2 objA 2 (by decide) (Or.inr rfl)⟩

/-- The integer branch of the number-to-key conversion produces the plain
decimal form of the integer. -/
theorem numberKeyString_int (m : ℤ) : numberKeyString (.val (m : ℚ)) = toString m := by
  simp [numberKeyString, Rat.intCast_den, Rat.intCast_num]

/-- C7: for a DynamicValue holding a Record, property access returns the
stored value when the key is present and Undefined when it is absent,
never throwing (the core.h prototype member is never populated, so the
prototype chain is always empty and own lookup is chain lookup); an
integer key is first converted to its canonical decimal string form
before lookup; and property access on a value not holding a Record
returns Undefined. -/
theorem property_access_miss_undefined :
    (∀ (props : List (String × any)) (key : String) (v : any),
      props.lookup key = some v → any.index (.obj props) key = v) ∧
    (∀ (props : List (String × any)) (key : String),
      props.lookup key = none → any.index (.obj props) key = .undefined) ∧
    (∀ (a : any) (m : ℤ), a.indexInt m = a.index (toString m)) ∧
    (∀ (a : any) (key : String), (∀ props, a ≠ .obj props) →
      a.index key = .undefined) := by
  refine ⟨?_, ?_, ?_, ?_⟩
  · intro props key v h
    simp [any.index, objHas, getAsJsAny, h]
  · intro props key h
    simp [any.index, objHas, getAsJsAny, h]
  · intro a m
    cases a <;> simp [any.indexInt, any.indexNum, any.index, numberKeyString_int]
  · intro a key ha
    cases a with
    | obj props => exact absurd rfl (ha props)
    | undefined => rfl
    | null => rfl
    | boolean b => rfl
    | num n => rfl
    | str t => rfl
    | arr xs => rfl

/-- Witness for C7 at a concrete Record and a non-Record value. -/
theorem property_access_miss_undefined_witness :
    ([("k", any.null)].lookup "k" = some any.null ∧
      ([] : List (String × any)).lookup "x" = none ∧
      (∀ props, any.null ≠ any.obj props)) ∧
    any.index (.obj [("k", any.null)]) "k" = any.null ∧
    any.index (.obj ([] : List (String × any))) "x" = .undefined ∧
    any.index .null "x" = .undefined :=
  ⟨⟨rfl, rfl, fun props h => nomatch h⟩,
    property_access_miss_undefined.1 [("k", any.null)] "k" any.null rfl,
    property_access_miss_undefined.2.1 [] "x" rfl,
    property_access_miss_undefined.2.2.2 .null "x" (fun props h => nomatch h)⟩

/-- C8: for any Record C whose prototype is P, where P holds own key a
with value 1 and C holds no own a, hasOwnProperty on C is false while
property lookup on C finds 1 through the prototype chain; and after the
own write C.defineProperty(a, 2), hasOwnProperty on C is true, the
prototype reference is unchanged, and lookup on P still finds 1: writes
never propagate to the prototype. -/
theorem record_prototype_lookup
    (cp pp : List (String × any)) (pproto : Option jsObject)
    (hC : cp.lookup "a" = none)
    (hP : pp.lookup "a" = some (.num (.val 1))) :
    (jsObject.mk cp (some (.mk pp pproto))).hasOwnProperty "a" = false ∧
    (jsObject.mk cp (some (.mk pp pproto))).opIndex "a" = .num (.val 1) ∧
    ((jsObject.mk cp (some (.mk pp pproto))).defineProperty "a"
        (.num (.val 2))).hasOwnProperty "a" = true ∧
    ((jsObject.mk cp (some (.mk pp pproto))).defineProperty "a"
        (.num (.val 2))).proto = some (.mk pp pproto) ∧
    (jsObject.mk pp pproto).opIndex "a" = .num (.val 1) := by
  refine ⟨?_, ?_, ?_, rfl, ?_⟩
  · simp [jsObject.hasOwnProperty, hC]
  · simp [jsObject.opIndex, hC, hP]
  · simp [jsObject.defineProperty, jsObject.hasOwnProperty, updateProps_lookup_self]
  · simp [jsObject.opIndex, hP]

/-- Witness for C8 at a concrete child and prototype pair. -/
theorem record_prototype_lookup_witness :
    (([] : List (String × any)).lookup "a" = none ∧
      [("a", any.num (.val 1))].lookup "a" = some (.num (.val 1))) ∧
    ((jsObject.mk [] (some (.mk [("a", any.num (.val 1))] none))).hasOwnProperty "a" = false ∧
      (jsObject.mk [] (some (.mk [("a", any.num (.val 1))] none))).opIndex "a" = .num (.val 1) ∧
      ((jsObject.mk [] (some (.mk [("a", any.num (.val 1))] none))).defineProperty "a"
          (.num (.val 2))).hasOwnProperty "a" = true ∧
      ((jsObject.mk [] (some (.mk [("a", any.num (.val 1))] none))).defineProperty "a"
          (.num (.val 2))).proto = some (.mk [("a", any.num (.val 1))] none) ∧
      (jsObject.mk [("a", any.num (.val 1))] none).opIndex "a" = .num (.val 1)) :=
  ⟨⟨rfl, rfl⟩, record_prototype_lookup [] [("a", any.num (.val 1))] none rfl rfl⟩

/-- Once the aggregate promise of all is settled, later input
settlements leave it untouched: the resolve and reject attempts inside
the registered callbacks are no-ops on a settled promise. -/
theorem allFold_settled (n : ℕ) (events : List (ℕ × Outcome α ε)) :
    ∀ s : AllState α ε, s.agg.state ≠ .Pending →
    (events.foldl (allStep n) s).agg = s.agg := by
  induction events with
  | nil => intro s _; rfl
  | cons ev rest ih =>
    intro s h
    obtain ⟨i, out⟩ := ev
    have hstep : (allStep n s (i, out)).agg = s.agg := by
      cases out with
      | fulfill v =>
        simp only [allStep]
        split
        · rw [Promise.resolve_settled _ h]
        · rfl
      | rejected e =>
        simp only [allStep]
        rw [Promise.reject_settled _ h]
    rw [List.foldl_cons]
    rw [ih _ (by rw [hstep]; exact h)]
    exact hstep

/-- While fewer inputs than the total have fulfilled and no rejection
has arrived, the aggregate promise of all stays freshly pending and the
completion counter counts the fulfillments. -/
theorem allFold_fulfills_pending (n : ℕ) :
    ∀ (l : List (ℕ × Outcome α ε)) (s : AllState α ε),
    (∀ ev ∈ l, ev.2.isFulfill = true) →
    s.agg = Promise.init →
    s.completed + l.length < n →
    (l.foldl (allStep n) s).agg = Promise.init ∧
    (l.foldl (allStep n) s).completed = s.completed + l.length := by
  intro l
  induction l with
  | nil =>
    intro s _ hagg _
    exact ⟨hagg, rfl⟩
  | cons ev rest ih =>
    intro s hful hagg hlt
    obtain ⟨i, out⟩ := ev
    cases out with
    | rejected e =>
      have := hful (i, .rejected e) (by simp)
      simp [Outcome.isFulfill] at this
    | fulfill v =>
      have hne : ¬ s.completed + 1 = n := by
        simp at hlt
        omega
      have hstep : allStep n s (i, .fulfill v) =
          { results := s.results.set i v, completed := s.completed + 1,
            agg := s.agg } := by
        simp [allStep, hne]
      rw [List.foldl_cons, hstep]
      have hrec := ih { results := s.results.set i v, completed := s.completed + 1, agg := s.agg } (fun ev h => hful ev (by simp [h])) hagg (by simp at hlt ⊢; omega)
      refine ⟨hrec.1, ?_⟩
      rw [hrec.2]
      simp
      omega

/-- A Nodup list of n naturals all below n contains every natural below
n. -/
theorem nodup_full_range_mem (n : ℕ) (l : List ℕ) (hnd : l.Nodup)
    (hlt : ∀ i ∈ l, i < n) (hlen : l.length = n) :
    ∀ j, j < n → j ∈ l := by
  intro j hj
  have hsub : l.toFinset ⊆ Finset.range n := by
    intro x hx
    simp only [List.mem_toFinset] at hx
    exact Finset.mem_range.mpr (hlt x hx)
  have hcard : l.toFinset.card = n := by
    rw [List.toFinset_card_of_nodup hnd, hlen]
  have heq : l.toFinset = Finset.range n :=
    Finset.eq_of_subset_of_card_le hsub (by rw [hcard, Finset.card_range])
  have : j ∈ l.toFinset := by
    rw [heq]
    exact Finset.mem_range.mpr hj
  simpa using this

/-- When the still-unsettled inputs of all fulfill one by one and the
last one brings the completion counter to the input count, the aggregate
resolves with the index-ordered results vector. -/
theorem allFold_fulfill_complete (n : ℕ) (dflt : α) (v : ℕ → α) :
    ∀ (l P : List ℕ) (s : AllState α ε),
    (P ++ l).Nodup →
    (∀ i ∈ P ++ l, i < n) →
    (P ++ l).length = n →
    l ≠ [] →
    s.completed = P.length →
    s.results = (List.range n).map (fun i => if i ∈ P then v i else dflt) →
    s.agg = Promise.init →
    ((l.map (fun i => (i, Outcome.fulfill (v i)))).foldl (allStep n) s).agg =
      { state := .Fulfilled, result := .value ((List.range n).map v),
        callbacks := [], errorCallbacks := [] } := by
  intro l
  induction l with
  | nil =>
    intro P s _ _ _ hne
    exact absurd rfl hne
  | cons a l2 ih =>
    intro P s hnd hlt hlen _ hcomp hres hagg
    have ha_lt : a < n := hlt a (by simp)
    have hset : s.results.set a (v a) =
        (List.range n).map (fun i => if i ∈ P ++ [a] then v i else dflt) := by
      rw [hres]
      apply List.ext_getElem
      · simp
      · intro j h1 h2
        simp only [List.getElem_set, List.getElem_map, List.getElem_range,
          List.length_map, List.length_range] at h1 h2 ⊢
        by_cases hja : a = j
        · subst hja
          simp
        · have hja2 : ¬ j = a := fun h => hja h.symm
          simp [hja, hja2, List.mem_append]
    rw [List.map_cons, List.foldl_cons]
    cases l2 with
    | nil =>
      have hfin : s.completed + 1 = n := by
        rw [hcomp]
        simpa using hlen
      have hcover : ∀ j, j < n → j ∈ P ++ [a] :=
        nodup_full_range_mem n (P ++ [a]) hnd hlt (by simpa using hlen)
      have hfull : (List.range n).map (fun i => if i ∈ P ++ [a] then v i else dflt) =
          (List.range n).map v := by
        apply List.map_congr_left
        intro i hi
        simp [hcover i (List.mem_range.mp hi)]
      simp only [allStep, hfin, if_pos rfl, List.map_nil, List.foldl_nil]
      rw [hset, hfull, hagg]
      rfl
    | cons b l3 =>
      have hne2 : ¬ s.completed + 1 = n := by
        rw [hcomp]
        simp at hlen
        omega
      have hstep : allStep n s (a, Outcome.fulfill (v a)) =
          { results := s.results.set a (v a), completed := s.completed + 1,
            agg := s.agg } := by
        simp [allStep, hne2]
      rw [hstep]
      have hassoc : P ++ a :: b :: l3 = (P ++ [a]) ++ b :: l3 := by
        simp
      rw [hassoc] at hnd hlt hlen
      exact ih (P ++ [a])
        { results := s.results.set a (v a), completed := s.completed + 1,
          agg := s.agg }
        hnd hlt hlen (by simp)
        (by simp [hcomp])
        hset hagg

/-- C3: when every input of all fulfills, in any completion order, the
aggregate fulfills with the vector whose element at index i is the
fulfillment value of input i; and when some input rejects, the aggregate
rejects with the error of the first rejection seen, regardless of how or
whether the other inputs settle afterwards. -/
theorem all_index_order_and_first_rejection (n : ℕ) (dflt : α) (v : ℕ → α) :
    (∀ order : List ℕ, order.Perm (List.range n) →
      (allRun n dflt (order.map (fun i => (i, Outcome.fulfill (v i)))) :
          AllState α ε).agg =
        { state := .Fulfilled, result := .value ((List.range n).map v),
          callbacks := [], errorCallbacks := [] }) ∧
    (∀ (pre post : List (ℕ × Outcome α ε)) (j : ℕ) (e : ε),
      ((pre ++ (j, Outcome.rejected e) :: post).map Prod.fst).Nodup →
      (∀ ev ∈ pre ++ (j, Outcome.rejected e) :: post, ev.1 < n) →
      (∀ ev ∈ pre, ev.2.isFulfill = true) →
      (allRun n dflt (pre ++ (j, Outcome.rejected e) :: post)).agg =
        { state := .Rejected, result := .error e,
          callbacks := [], errorCallbacks := [] }) := by
  constructor
  · intro order hperm
    by_cases hn : n = 0
    · subst hn
      have : order = [] := List.perm_nil.mp (by simpa using hperm)
      subst this
      rfl
    · have hnd : order.Nodup := hperm.nodup_iff.mpr (List.nodup_range n)
      have hlt : ∀ i ∈ order, i < n := by
        intro i hi
        exact List.mem_range.mp (hperm.mem_iff.mp hi)
      have hlen : order.length = n := by
        simpa using hperm.length_eq
      have horder : order ≠ [] := by
        intro h
        subst h
        simp at hlen
        omega
      rw [allRun, if_neg hn]
      exact allFold_fulfill_complete n dflt v order []
        { results := List.replicate n dflt, completed := 0, agg := Promise.init }
        (by simpa using hnd) (by simpa using hlt) (by simpa using hlen) horder rfl
        (by apply List.ext_getElem <;> simp) rfl
  · intro pre post j e hnd hlt hpre
    have hj : j < n := hlt (j, .rejected e) (by simp)
    have hn : ¬ n = 0 := by omega
    have hndparts : (pre.map Prod.fst).Nodup ∧ j ∉ pre.map Prod.fst := by
      rw [List.map_append] at hnd
      rw [List.nodup_append] at hnd
      refine ⟨hnd.1, ?_⟩
      intro hmem
      exact hnd.2.2 hmem (by simp)
    have hpreLt : ∀ i ∈ pre.map Prod.fst, i < n := by
      intro i hi
      obtain ⟨ev, hev, hevi⟩ := List.mem_map.mp hi
      rw [← hevi]
      exact hlt ev (by simp [hev])
    have hpreLen : pre.length < n := by
      have hsub : (pre.map Prod.fst).toFinset ⊆ Finset.range n \ {j} := by
        intro x hx
        simp only [List.mem_toFinset] at hx
        simp only [Finset.mem_sdiff, Finset.mem_range, Finset.mem_singleton]
        refine ⟨hpreLt x hx, ?_⟩
        intro hxj
        subst hxj
        exact hndparts.2 hx
      have hcard : (pre.map Prod.fst).toFinset.card = pre.length := by
        rw [List.toFinset_card_of_nodup hndparts.1, List.length_map]
      have hle := Finset.card_le_card hsub
      rw [hcard, Finset.card_sdiff (by simpa using hj), Finset.card_range,
        Finset.card_singleton] at hle
      omega
    rw [allRun, if_neg hn, List.foldl_append, List.foldl_cons]
    have hPreFold := allFold_fulfills_pending n pre
      { results := List.replicate n dflt, completed := 0, agg := Promise.init }
      hpre rfl (by simpa using hpreLen)
    set s1 := pre.foldl (allStep n)
      { results := List.replicate n dflt, completed := 0, agg := Promise.init }
    have hstep : (allStep n s1 (j, Outcome.rejected e)).agg =
        { state := .Rejected, result := .error e,
          callbacks := [], errorCallbacks := [] } := by
      simp only [allStep]
      rw [hPreFold.1]
      rfl
    rw [allFold_settled n post _ (by rw [hstep]; simp)]
    exact hstep

/-- Witness for C3 with two inputs: fulfillment completing out of input
order, and a first rejection followed by a later fulfillment. -/
theorem all_index_order_and_first_rejection_witness :
    ([1, 0].Perm (List.range 2) ∧
      (([(0, Outcome.fulfill 5), (1, (Outcome.rejected 9 : Outcome ℕ ℕ)),
          (2, Outcome.fulfill 6)].map Prod.fst).Nodup ∧
        (∀ ev ∈ [(0, Outcome.fulfill 5), (1, (Outcome.rejected 9 : Outcome ℕ ℕ)),
          (2, Outcome.fulfill 6)], ev.1 < 3) ∧
        (∀ ev ∈ [((0 : ℕ), (Outcome.fulfill 5 : Outcome ℕ ℕ))], ev.2.isFulfill = true))) ∧
    (allRun 2 0 ([1, 0].map (fun i => (i, Outcome.fulfill (i + 10)))) :
        AllState ℕ ℕ).agg =
      { state := .Fulfilled, result := .value ((List.range 2).map (fun i => i + 10)),
        callbacks := [], errorCallbacks := [] } ∧
    (allRun 3 0 ([(0, Outcome.fulfill 5)] ++
        (1, (Outcome.rejected 9 : Outcome ℕ ℕ)) :: [(2, Outcome.fulfill 6)])).agg =
      { state := .Rejected, result := .error 9,
        callbacks := [], errorCallbacks := [] } :=
  ⟨⟨by decide, by decide, by decide, by decide⟩,
    (all_index_order_and_first_rejection 2 0 (fun i => i + 10)).1 [1, 0] (by decide),
    (all_index_order_and_first_rejection 3 0 (fun i => i + 10)).2
      [(0, Outcome.fulfill 5)] [(2, Outcome.fulfill 6)] 1 9
      (by decide) (by decide) (by decide)⟩
